import Mathlib

/-!
# Verification of the Llama2-from-scratch forward-pass pipeline

Shallow embedding of the forward-pass code in
`src/models/llama2/scrapwork/llama2.ipynb`: RMSNorm, the gated SiLU
FeedForward, rotary positional embeddings (`precompute_rope_params`,
`compute_rope`), causal multi-head attention (`MultiHeadedAttention`)
and `TransformerBlock`.

Conventions of the embedding:
* Tensors are modelled as ℕ-indexed real-valued functions together with
  explicit shape parameters; an operation only ever reads indices inside
  the declared shape.  Broadcasting over leading (batch / head)
  dimensions is modelled by abstracting over the leading indices.
* Floating-point arithmetic is idealised as exact real arithmetic.
* `torch.softmax` applied to a row containing `-inf` entries (produced by
  `masked_fill_(mask_bool, -torch.inf)`) gives those entries weight
  `exp(-inf) = 0` in both the numerator and the denominator.  Since ℝ has
  no `-inf`, we transcribe the combination
  `softmax(masked_fill(s, -inf) / c)` as a masked softmax: a masked entry
  has weight `0` and does not contribute to the normalising sum.  Note
  that `(-inf) / c = -inf` for the positive constant
  `c = head_dim ** 0.5`, so scaling after masking (as the code does)
  keeps masked entries at `-inf`.
* Python `assert` statements are modelled with `Except String`-returning
  wrappers of the total functions.
-/

open Finset

noncomputable section

namespace Llama2

/-- `nn.Linear(dIn, dOut, bias=False)`: `y[o] = Σ_{i<dIn} w[o,i] * x[i]`. -/
def linearNB (w : ℕ → ℕ → ℝ) (dIn : ℕ) (x : ℕ → ℝ) : ℕ → ℝ :=
  fun o => ∑ i ∈ Finset.range dIn, w o i * x i

/-- Parameters of an `nn.Linear` layer; when the layer is constructed with
`bias=False` the `bias` field is the zero function. -/
structure LinearParams where
  weight : ℕ → ℕ → ℝ
  bias : ℕ → ℝ

/-- Forward pass of `nn.Linear`: `y = x @ W.T + b`. -/
def LinearParams.fwd (p : LinearParams) (dIn : ℕ) (x : ℕ → ℝ) : ℕ → ℝ :=
  fun o => (∑ i ∈ Finset.range dIn, p.weight o i * x i) + p.bias o

/-- `RMSNorm` module state: `embd_dim`, `eps` and the learnable `weight`
vector (initialised to ones, but learnable, hence arbitrary here). -/
structure RMSNorm where
  embd_dim : ℕ
  eps : ℝ
  weight : ℕ → ℝ

/-- `RMSNorm.forward`, transcribed line by line:
`means = x.pow(2).mean(dim=-1, keepdim=True)`;
`x_norm = x * torch.rsqrt(means + self.eps)` where `rsqrt t = 1/√t`;
`return (x_norm * self.weight).to(dtype=x.dtype)` (the dtype cast is the
identity in exact real arithmetic).  `x` is one vector of the last
dimension; leading dimensions broadcast pointwise. -/
def RMSNorm.forward (p : RMSNorm) (x : ℕ → ℝ) : ℕ → ℝ :=
  let means : ℝ := (∑ j ∈ Finset.range p.embd_dim, x j ^ 2) / (p.embd_dim : ℝ)
  let x_norm : ℕ → ℝ := fun i => x i * (Real.sqrt (means + p.eps))⁻¹
  fun i => x_norm i * p.weight i

/-- `torch.sigmoid`: `σ(z) = 1 / (1 + exp(-z))`. -/
def sigmoid (z : ℝ) : ℝ := 1 / (1 + Real.exp (-z))

/-- `nn.SiLU`: `silu(z) = z * σ(z)`. -/
def silu (z : ℝ) : ℝ := z * sigmoid z

/-- `FeedForward` module state: `fc1, fc2 : emb_dim → hidden_dim` and
`fc3 : hidden_dim → emb_dim`, each an `nn.Linear` whose bias is present
iff `config.ff_bias` (a zero `bias` field models `bias=False`). -/
structure FeedForward where
  emb_dim : ℕ
  hidden_dim : ℕ
  fc1 : LinearParams
  fc2 : LinearParams
  fc3 : LinearParams

/-- `FeedForward.forward`, transcribed:
`x_fc1 = self.fc1(x)`; `x_fc2 = self.fc2(x)`;
`x = self.silu(x_fc1) * x_fc2`; `return self.fc3(x)`.
`x` is one token vector; leading dimensions broadcast pointwise. -/
def FeedForward.forward (p : FeedForward) (x : ℕ → ℝ) : ℕ → ℝ :=
  let x_fc1 := p.fc1.fwd p.emb_dim x
  let x_fc2 := p.fc2.fwd p.emb_dim x
  let xg : ℕ → ℝ := fun h => silu (x_fc1 h) * x_fc2 h
  p.fc3.fwd p.hidden_dim xg

/-- `inv_freq = 1.0 / (theta_base ** (arange(0, head_dim, 2).float()
/ head_dim))`: entry `j` (for `j < head_dim / 2`) is
`1 / theta_base ^ ((2*j) / head_dim)`, a real (rpow) power. -/
def ropeInvFreq (head_dim : ℕ) (theta_base : ℝ) (j : ℕ) : ℝ :=
  1 / theta_base ^ (((2 * j : ℕ) : ℝ) / (head_dim : ℝ))

/-- The `angles` tensor of `precompute_rope_params` after
`angles = positions[:, None] * inv_freq[None, :]` and
`angles = torch.cat([angles, angles], dim=1)`: column `k < head_dim / 2`
reads `inv_freq[k]`, column `k ≥ head_dim / 2` reads
`inv_freq[k - head_dim / 2]`. -/
def ropeAngles (head_dim : ℕ) (theta_base : ℝ) (m k : ℕ) : ℝ :=
  if k < head_dim / 2 then (m : ℝ) * ropeInvFreq head_dim theta_base k
  else (m : ℝ) * ropeInvFreq head_dim theta_base (k - head_dim / 2)

/-- The `cos` buffer returned by `precompute_rope_params`
(rows `m < context_length`, columns `k < head_dim`). -/
def ropeCos (head_dim : ℕ) (theta_base : ℝ) (m k : ℕ) : ℝ :=
  Real.cos (ropeAngles head_dim theta_base m k)

/-- The `sin` buffer returned by `precompute_rope_params`. -/
def ropeSin (head_dim : ℕ) (theta_base : ℝ) (m k : ℕ) : ℝ :=
  Real.sin (ropeAngles head_dim theta_base m k)

/-- `precompute_rope_params(head_dim, theta_base, context_length)` with its
`assert head_dim % 2 == 0` modelled as an `Except`: on success it returns
the `(cos, sin)` pair of buffers. -/
def precompute_rope_paramsE (head_dim : ℕ) (theta_base : ℝ) (context_length : ℕ) :
    Except String ((ℕ → ℕ → ℝ) × (ℕ → ℕ → ℝ)) :=
  if head_dim % 2 = 0 then
    Except.ok (ropeCos head_dim theta_base, ropeSin head_dim theta_base)
  else Except.error "Embedding dimension must be even"

/-- `compute_rope(x, cos, sin)` on one `(seq_len, head_dim)` slice
(the batch and head dimensions broadcast pointwise), transcribed:
`x1 = x[..., : head_dim // 2]`; `x2 = x[..., head_dim // 2 :]`;
`rotated = torch.cat((-x2, x1), dim=-1)`;
`x_rotated = (x * cos) + (rotated * sin)` (the slice `cos[:seq_len, :]`
and the final dtype cast only restrict shape / are the identity). -/
def compute_rope (head_dim : ℕ) (x : ℕ → ℕ → ℝ) (c s : ℕ → ℕ → ℝ) :
    ℕ → ℕ → ℝ :=
  let x1 : ℕ → ℕ → ℝ := fun m j => x m j
  let x2 : ℕ → ℕ → ℝ := fun m j => x m (head_dim / 2 + j)
  let rotated : ℕ → ℕ → ℝ := fun m k =>
    if k < head_dim / 2 then -(x2 m k) else x1 m (k - head_dim / 2)
  fun m k => x m k * c m k + rotated m k * s m k

/-- `compute_rope` with its `assert head_dim % 2 == 0` modelled as an
`Except` (the `head_dim` argument is the size of the last dimension of
`x`, read off `x.shape` in the code). -/
def compute_ropeE (head_dim : ℕ) (x : ℕ → ℕ → ℝ) (c s : ℕ → ℕ → ℝ) :
    Except String (ℕ → ℕ → ℝ) :=
  if head_dim % 2 = 0 then Except.ok (compute_rope head_dim x c s)
  else Except.error "Head dimension must be even"

/-- `MultiHeadedAttention` module state: the constructor arguments, the
four `nn.Linear(…, bias=False)` weight matrices (randomly initialised by
torch, hence arbitrary fields here) and the three registered buffers
`mask`, `cos`, `sin`. -/
structure MultiHeadedAttention where
  d_in : ℕ
  d_out : ℕ
  context_length : ℕ
  num_heads : ℕ
  W_query : ℕ → ℕ → ℝ
  W_key : ℕ → ℕ → ℝ
  W_value : ℕ → ℕ → ℝ
  out_proj : ℕ → ℕ → ℝ
  mask : ℕ → ℕ → Bool
  cos : ℕ → ℕ → ℝ
  sin : ℕ → ℕ → ℝ

/-- `self.head_dim = d_out // num_heads`. -/
def MultiHeadedAttention.head_dim (p : MultiHeadedAttention) : ℕ :=
  p.d_out / p.num_heads

/-- `MultiHeadedAttention.__init__` (its assert handled separately by
`mhaInitE`): stores the linear weights, registers
`mask = torch.triu(torch.ones(context_length, context_length), diagonal=1)`
— entry `(i, j)` nonzero iff `i < j` — and the `cos`/`sin` buffers from
`precompute_rope_params(head_dim=self.head_dim, context_length=…)`, whose
default `theta_base` is `10_000`. -/
def mhaInit (d_in d_out context_length num_heads : ℕ)
    (wq wk wv wo : ℕ → ℕ → ℝ) : MultiHeadedAttention :=
  { d_in := d_in
    d_out := d_out
    context_length := context_length
    num_heads := num_heads
    W_query := wq
    W_key := wk
    W_value := wv
    out_proj := wo
    mask := fun i j => decide (i < j)
    cos := ropeCos (d_out / num_heads) 10000
    sin := ropeSin (d_out / num_heads) 10000 }

/-- `MultiHeadedAttention.__init__` with its own
`assert d_out % num_heads == 0` AND the assert inside the
`precompute_rope_params(head_dim=self.head_dim, …)` call it makes. -/
def mhaInitE (d_in d_out context_length num_heads : ℕ)
    (wq wk wv wo : ℕ → ℕ → ℝ) : Except String MultiHeadedAttention :=
  if d_out % num_heads = 0 then
    match precompute_rope_paramsE (d_out / num_heads) 10000 context_length with
    | Except.ok _ => Except.ok (mhaInit d_in d_out context_length num_heads wq wk wv wo)
    | Except.error e => Except.error e
  else Except.error "The output dimension (d_out) mus be divisible by n_heads"

/-- `queries = self.W_query(x)` then
`queries.view(b, num_tokens, num_heads, head_dim).transpose(1, 2)`:
`Q[bi, h, t, k] = W_query(x)[bi, t, h * head_dim + k]`. -/
def mhaQ (p : MultiHeadedAttention) (x : ℕ → ℕ → ℕ → ℝ) (bi h t k : ℕ) : ℝ :=
  linearNB p.W_query p.d_in (x bi t) (h * p.head_dim + k)

/-- `keys = self.W_key(x)`, viewed and transposed the same way. -/
def mhaK (p : MultiHeadedAttention) (x : ℕ → ℕ → ℕ → ℝ) (bi h t k : ℕ) : ℝ :=
  linearNB p.W_key p.d_in (x bi t) (h * p.head_dim + k)

/-- `values = self.W_value(x)`, viewed and transposed the same way;
no rotary embedding is applied to values. -/
def mhaV (p : MultiHeadedAttention) (x : ℕ → ℕ → ℕ → ℝ) (bi h t k : ℕ) : ℝ :=
  linearNB p.W_value p.d_in (x bi t) (h * p.head_dim + k)

/-- `queries = compute_rope(queries, self.cos, self.sin)` on each
`(bi, h)` slice. -/
def mhaQr (p : MultiHeadedAttention) (x : ℕ → ℕ → ℕ → ℝ) (bi h : ℕ) :
    ℕ → ℕ → ℝ :=
  compute_rope p.head_dim (mhaQ p x bi h) p.cos p.sin

/-- `keys = compute_rope(keys, self.cos, self.sin)` on each `(bi, h)`
slice. -/
def mhaKr (p : MultiHeadedAttention) (x : ℕ → ℕ → ℕ → ℝ) (bi h : ℕ) :
    ℕ → ℕ → ℝ :=
  compute_rope p.head_dim (mhaK p x bi h) p.cos p.sin

/-- `attn_scores = queries @ keys.transpose(2, 3)`:
`scores[bi, h, i, j] = Σ_{k < head_dim} Qr[bi, h, i, k] * Kr[bi, h, j, k]`. -/
def mhaScores (p : MultiHeadedAttention) (x : ℕ → ℕ → ℕ → ℝ)
    (bi h i j : ℕ) : ℝ :=
  ∑ k ∈ Finset.range p.head_dim, mhaQr p x bi h i k * mhaKr p x bi h j k

/-- `attn_scores.masked_fill_(mask_bool, -torch.inf)` followed by
`attn_weights = torch.softmax(attn_scores / keys.size(-1)**0.5, dim=-1)`,
with `mask_bool = self.mask.bool()[:num_tokens, :num_tokens]` and the
softmax taken over the key dimension `j < num_tokens`.  A masked entry is
`-inf`, stays `-inf` after division by the positive constant
`head_dim ** 0.5`, and receives weight `exp(-inf) = 0` in the softmax's
numerator and denominator; the transcription folds this into a masked
softmax (see the module docstring). -/
def mhaWeights (p : MultiHeadedAttention) (x : ℕ → ℕ → ℕ → ℝ)
    (num_tokens : ℕ) (bi h i j : ℕ) : ℝ :=
  if p.mask i j then 0
  else
    Real.exp (mhaScores p x bi h i j / Real.sqrt (p.head_dim : ℝ)) /
      ∑ j' ∈ (Finset.range num_tokens).filter (fun j' => p.mask i j' = false),
        Real.exp (mhaScores p x bi h i j' / Real.sqrt (p.head_dim : ℝ))

/-- `context_vec = (attn_weights @ values)`:
`C[bi, h, t, k] = Σ_{j < num_tokens} weights[bi, h, t, j] * V[bi, h, j, k]`. -/
def mhaContextHead (p : MultiHeadedAttention) (x : ℕ → ℕ → ℕ → ℝ)
    (num_tokens : ℕ) (bi h t k : ℕ) : ℝ :=
  ∑ j ∈ Finset.range num_tokens,
    mhaWeights p x num_tokens bi h t j * mhaV p x bi h j k

/-- `.transpose(1, 2)` then `.reshape(b, num_tokens, self.d_out)`:
`ctx[bi, t, o] = C[bi, o / head_dim, t, o % head_dim]` for `o < d_out`. -/
def mhaContext (p : MultiHeadedAttention) (x : ℕ → ℕ → ℕ → ℝ)
    (num_tokens : ℕ) (bi t o : ℕ) : ℝ :=
  mhaContextHead p x num_tokens bi (o / p.head_dim) t (o % p.head_dim)

/-- `MultiHeadedAttention.forward` on an input of shape
`(b, num_tokens, d_in)`: the stages above followed by
`context_vec = self.out_proj(context_vec)`. -/
def MultiHeadedAttention.forward (p : MultiHeadedAttention)
    (num_tokens : ℕ) (x : ℕ → ℕ → ℕ → ℝ) : ℕ → ℕ → ℕ → ℝ :=
  fun bi t => linearNB p.out_proj p.d_out (mhaContext p x num_tokens bi t)

/-- `MultiHeadedAttention.forward` together with the assert of the
`compute_rope` calls it makes (the only guard in the forward body;
`head_dim` there is read off the last dimension of `keys`/`queries`,
which is `self.head_dim`). -/
def mhaForwardE (p : MultiHeadedAttention) (num_tokens : ℕ)
    (x : ℕ → ℕ → ℕ → ℝ) : Except String (ℕ → ℕ → ℕ → ℝ) :=
  if p.head_dim % 2 = 0 then Except.ok (p.forward num_tokens x)
  else Except.error "Head dimension must be even"

/-- `RMSNorm.forward` on a `(b, num_tokens, embd_dim)` input: the
normalisation acts on the last dimension, broadcasting over the leading
two. -/
def rmsnormB (p : RMSNorm) (x : ℕ → ℕ → ℕ → ℝ) : ℕ → ℕ → ℕ → ℝ :=
  fun bi t => p.forward (x bi t)

/-- `FeedForward.forward` on a `(b, num_tokens, emb_dim)` input: the
linear layers act on the last dimension, broadcasting over the leading
two. -/
def ffB (p : FeedForward) (x : ℕ → ℕ → ℕ → ℝ) : ℕ → ℕ → ℕ → ℝ :=
  fun bi t => p.forward (x bi t)

/-- `TransformerBlock` module state: attention, feed-forward and the two
RMSNorms (the constructor wires `att` with
`d_in = d_out = cfg.emb_dim`). -/
structure TransformerBlock where
  att : MultiHeadedAttention
  ff : FeedForward
  norm1 : RMSNorm
  norm2 : RMSNorm

/-- `TransformerBlock.forward`, transcribed:
`residual = x`; `x = self.norm1(x)`; `x = self.att(x)`;
`x = x + residual`; `residual = x`; `x = self.norm2(x)`;
`x = self.ff(x)`; `x = x + residual`; `return x`. -/
def TransformerBlock.forward (p : TransformerBlock) (num_tokens : ℕ)
    (x : ℕ → ℕ → ℕ → ℝ) : ℕ → ℕ → ℕ → ℝ :=
  let residual := x
  let x1 := rmsnormB p.norm1 x
  let x2 := p.att.forward num_tokens x1
  let x3 : ℕ → ℕ → ℕ → ℝ := fun bi t i => x2 bi t i + residual bi t i
  let residual2 := x3
  let x4 := rmsnormB p.norm2 x3
  let x5 := ffB p.ff x4
  fun bi t i => x5 bi t i + residual2 bi t i

/-! ### Spec-side description of `MultiHeadedAttention.forward` (for C3)

The following definitions follow the WORDS of claim C3, to be compared
with the transcription above: per head, queries/keys/values are the
`num_heads` slices of size `head_dim` of `W_query(x)`, `W_key(x)`,
`W_value(x)`; rotary embedding on queries and keys only; attention
scores `q·kᵀ` divided by `√head_dim`; every strictly-upper-triangular
score (key index `j` greater than query index `i`) set to `-inf`
BEFORE the softmax over the key dimension (same masked-softmax reading
of `-inf`); weights times values; heads re-concatenated; `out_proj`. -/

/-- Spec C3: slice `h` of `W_query(x)`, rotary-embedded. -/
def mhaQrSpec (p : MultiHeadedAttention) (x : ℕ → ℕ → ℕ → ℝ) (bi h : ℕ) :
    ℕ → ℕ → ℝ :=
  compute_rope (p.d_out / p.num_heads)
    (fun t k => linearNB p.W_query p.d_in (x bi t) (h * (p.d_out / p.num_heads) + k))
    p.cos p.sin

/-- Spec C3: slice `h` of `W_key(x)`, rotary-embedded. -/
def mhaKrSpec (p : MultiHeadedAttention) (x : ℕ → ℕ → ℕ → ℝ) (bi h : ℕ) :
    ℕ → ℕ → ℝ :=
  compute_rope (p.d_out / p.num_heads)
    (fun t k => linearNB p.W_key p.d_in (x bi t) (h * (p.d_out / p.num_heads) + k))
    p.cos p.sin

/-- Spec C3: slice `h` of `W_value(x)`, NOT rotary-embedded. -/
def mhaVSpec (p : MultiHeadedAttention) (x : ℕ → ℕ → ℕ → ℝ)
    (bi h t k : ℕ) : ℝ :=
  linearNB p.W_value p.d_in (x bi t) (h * (p.d_out / p.num_heads) + k)

/-- Spec C3: attention scores `q·kᵀ` divided by `√head_dim`
(scaling applied before masking, as the claim words it). -/
def mhaScoresSpec (p : MultiHeadedAttention) (x : ℕ → ℕ → ℕ → ℝ)
    (bi h i j : ℕ) : ℝ :=
  (∑ k ∈ Finset.range (p.d_out / p.num_heads),
      mhaQrSpec p x bi h i k * mhaKrSpec p x bi h j k) /
    Real.sqrt ((p.d_out / p.num_heads : ℕ) : ℝ)

/-- Spec C3: every score at a strictly-upper-triangular position
(`j > i`) set to `-inf`, then softmax over the key dimension
`j < num_tokens` (masked-softmax reading of `-inf`). -/
def mhaWeightsSpec (p : MultiHeadedAttention) (x : ℕ → ℕ → ℕ → ℝ)
    (num_tokens : ℕ) (bi h i j : ℕ) : ℝ :=
  if i < j then 0
  else
    Real.exp (mhaScoresSpec p x bi h i j) /
      ∑ j' ∈ (Finset.range num_tokens).filter (fun j' => ¬ i < j'),
        Real.exp (mhaScoresSpec p x bi h i j')

/-- Spec C3: the full forward — weights times values, heads
re-concatenated, passed through `out_proj`. -/
def mhaForwardSpec (p : MultiHeadedAttention) (num_tokens : ℕ)
    (x : ℕ → ℕ → ℕ → ℝ) : ℕ → ℕ → ℕ → ℝ :=
  fun bi t =>
    linearNB p.out_proj p.d_out
      (fun o =>
        ∑ j ∈ Finset.range num_tokens,
          mhaWeightsSpec p x num_tokens bi (o / (p.d_out / p.num_heads)) t j *
            mhaVSpec p x bi (o / (p.d_out / p.num_heads)) j
              (o % (p.d_out / p.num_heads)))

/-! ### State-passing forwards (for C8)

Each forward is re-expressed as a state transformer returning
`(output, module state after the call, input tensor after the call)`.
The only in-place operation in any forward body is
`attn_scores.masked_fill_(mask_bool, -torch.inf)` in
`MultiHeadedAttention.forward`; it mutates `attn_scores`, the tensor
freshly allocated by `queries @ keys.transpose(2, 3)` two lines above,
so no module parameter, buffer, or input storage is written. -/

/-- `RMSNorm.forward` as a state transformer. -/
def rmsnormForwardS (p : RMSNorm) (x : ℕ → ℝ) :
    (ℕ → ℝ) × RMSNorm × (ℕ → ℝ) :=
  (p.forward x, p, x)

/-- `FeedForward.forward` as a state transformer. -/
def ffForwardS (p : FeedForward) (x : ℕ → ℝ) :
    (ℕ → ℝ) × FeedForward × (ℕ → ℝ) :=
  (p.forward x, p, x)

/-- `compute_rope` as a state transformer on `(x, cos, sin)`. -/
def computeRopeS (head_dim : ℕ) (x c s : ℕ → ℕ → ℝ) :
    (ℕ → ℕ → ℝ) × (ℕ → ℕ → ℝ) × (ℕ → ℕ → ℝ) × (ℕ → ℕ → ℝ) :=
  (compute_rope head_dim x c s, x, c, s)

/-- `MultiHeadedAttention.forward` as a state transformer.  The
`masked_fill_` lands on the local `attn_scores` (already folded into
`mhaWeights`); the module state — weights and the `mask`, `cos`, `sin`
buffers — and the input are handed back as they were received. -/
def mhaForwardS (p : MultiHeadedAttention) (num_tokens : ℕ)
    (x : ℕ → ℕ → ℕ → ℝ) :
    (ℕ → ℕ → ℕ → ℝ) × MultiHeadedAttention × (ℕ → ℕ → ℕ → ℝ) :=
  (p.forward num_tokens x, p, x)

/-- `TransformerBlock.forward` as a state transformer. -/
def tbForwardS (p : TransformerBlock) (num_tokens : ℕ)
    (x : ℕ → ℕ → ℕ → ℝ) :
    (ℕ → ℕ → ℕ → ℝ) × TransformerBlock × (ℕ → ℕ → ℕ → ℝ) :=
  (p.forward num_tokens x, p, x)

/-- All-zero weight matrix, used for concrete instantiations. -/
def w0 : ℕ → ℕ → ℝ := fun _ _ => 0

/-- A concrete `MultiHeadedAttention` module as `__init__` builds it:
`d_in = 2`, `d_out = 2`, `context_length = 4`, `num_heads = 1`,
zero weights. -/
def mha0 : MultiHeadedAttention := mhaInit 2 2 4 1 w0 w0 w0 w0

/-- A concrete all-zero `(batch, num_tokens, d_in)` input. -/
def x0 : ℕ → ℕ → ℕ → ℝ := fun _ _ _ => 0

/-- A concrete all-zero `(seq_len, head_dim)` slice. -/
def xs0 : ℕ → ℕ → ℝ := fun _ _ => 0

/-- A concrete `nn.Linear` layer with zero weight and zero bias. -/
def l0 : LinearParams := { weight := w0, bias := fun _ => 0 }

/-- A concrete `RMSNorm` module (`embd_dim = 2`, default-style `eps`,
all-ones weight as initialised). -/
def rms0 : RMSNorm := { embd_dim := 2, eps := 1, weight := fun _ => 1 }

/-- A concrete `FeedForward` module with zero layers. -/
def ff0 : FeedForward :=
  { emb_dim := 2, hidden_dim := 2, fc1 := l0, fc2 := l0, fc3 := l0 }

/-- A concrete `TransformerBlock`. -/
def tb0 : TransformerBlock :=
  { att := mha0, ff := ff0, norm1 := rms0, norm2 := rms0 }

/-! ## Helper lemmas -/

/-- Inversion of a successful `precompute_rope_params` call: `head_dim`
passed its evenness assert and the returned buffers are the `cos`/`sin`
tables. -/
theorem precompute_ok_inv {head_dim ctx : ℕ} {θ : ℝ} {c s : ℕ → ℕ → ℝ}
    (hcs : precompute_rope_paramsE head_dim θ ctx = Except.ok (c, s)) :
    head_dim % 2 = 0 ∧ c = ropeCos head_dim θ ∧ s = ropeSin head_dim θ := by
  unfold precompute_rope_paramsE at hcs
  by_cases h : head_dim % 2 = 0
  · rw [if_pos h] at hcs
    have := Except.ok.inj hcs
    exact ⟨h, congrArg Prod.fst this.symm, congrArg Prod.snd this.symm⟩
  · rw [if_neg h] at hcs
    exact absurd hcs (by simp)

/-- A linear layer's output depends only on the entries of its input. -/
theorem linearNB_congr (w : ℕ → ℕ → ℝ) (d : ℕ) {u v : ℕ → ℝ}
    (h : ∀ i, u i = v i) (o : ℕ) : linearNB w d u o = linearNB w d v o := by
  unfold linearNB
  exact Finset.sum_congr rfl fun i _ => by rw [h i]

/-- `compute_rope` at sequence position `m` reads its input only at
position `m`. -/
theorem compute_rope_pos_congr (head_dim : ℕ) {u v : ℕ → ℕ → ℝ}
    (c s : ℕ → ℕ → ℝ) (m : ℕ) (h : ∀ k, u m k = v m k) (k : ℕ) :
    compute_rope head_dim u c s m k = compute_rope head_dim v c s m k := by
  unfold compute_rope
  by_cases hk : k < head_dim / 2
  · simp only [hk, if_true, h k, h (head_dim / 2 + k)]
  · simp only [hk, if_false, h k, h (k - head_dim / 2)]

/-- Splitting a sum over `range (n + n)` into matched pairs. -/
theorem sum_range_add_pairs (n : ℕ) (g : ℕ → ℝ) :
    ∑ k ∈ Finset.range (n + n), g k = ∑ k ∈ Finset.range n, (g k + g (n + k)) := by
  rw [Finset.sum_add_distrib]
  have h1 : ∑ k ∈ Finset.range (n + n), g k
      = ∑ k ∈ Finset.Ico 0 n, g k + ∑ k ∈ Finset.Ico n (n + n), g k := by
    rw [Finset.sum_Ico_consecutive g (Nat.zero_le n) (Nat.le_add_right n n),
      Finset.range_eq_Ico]
  rw [h1]
  congr 1
  · rw [Finset.range_eq_Ico]
  · rw [Finset.sum_Ico_eq_sum_range]
    simp

/-! ## Claim theorems -/

/-- C4: `RMSNorm.forward(x)` returns `(x * rsqrt(mean(x² over the last
dimension) + eps)) * weight`: each token vector is rescaled using only
its own root-mean-square plus `eps`, elementwise-multiplied by the
learnable weight, with no mean-centering or shift term; on a batched
input the output at a token position depends only on the input vector at
that position. -/
theorem rmsnorm_forward_formula (p : RMSNorm) (x1 x2 : ℕ → ℕ → ℕ → ℝ)
    (bi t : ℕ) (h : x1 bi t = x2 bi t) (i : ℕ) :
    rmsnormB p x1 bi t i =
      x1 bi t i *
        (Real.sqrt
          ((∑ j ∈ Finset.range p.embd_dim, x1 bi t j ^ 2) / (p.embd_dim : ℝ) +
            p.eps))⁻¹ *
        p.weight i ∧
    rmsnormB p x1 bi t i = rmsnormB p x2 bi t i := by
  constructor
  · rfl
  · unfold rmsnormB
    rw [h]

/-- Witness for C4 at `rms0` and the zero input. -/
theorem rmsnorm_forward_formula_witness :
    x0 0 0 = x0 0 0 ∧
      (rmsnormB rms0 x0 0 0 0 =
          x0 0 0 0 *
            (Real.sqrt
              ((∑ j ∈ Finset.range rms0.embd_dim, x0 0 0 j ^ 2) /
                  (rms0.embd_dim : ℝ) +
                rms0.eps))⁻¹ *
            rms0.weight 0 ∧
        rmsnormB rms0 x0 0 0 0 = rmsnormB rms0 x0 0 0 0) :=
  ⟨rfl, rmsnorm_forward_formula rms0 x0 x0 0 0 rfl 0⟩

/-- C5: `FeedForward.forward(x)` equals `fc3(SiLU(fc1(x)) * fc2(x))`
with `SiLU(z) = z * sigmoid(z)`, `fc1, fc2 : emb_dim → hidden_dim`,
`fc3 : hidden_dim → emb_dim`; on a batched input the output at a token
position depends only on the input vector at that position. -/
theorem ff_forward_formula (p : FeedForward) (x1 x2 : ℕ → ℕ → ℕ → ℝ)
    (bi t : ℕ) (h : x1 bi t = x2 bi t) (o : ℕ) :
    ffB p x1 bi t o =
      p.fc3.fwd p.hidden_dim
        (fun hh =>
          silu (p.fc1.fwd p.emb_dim (x1 bi t) hh) *
            p.fc2.fwd p.emb_dim (x1 bi t) hh) o ∧
    (∀ z : ℝ, silu z = z * (1 / (1 + Real.exp (-z)))) ∧
    ffB p x1 bi t o = ffB p x2 bi t o := by
  refine ⟨rfl, fun z => rfl, ?_⟩
  unfold ffB
  rw [h]

/-- Witness for C5 at `ff0` and the zero input. -/
theorem ff_forward_formula_witness :
    x0 0 0 = x0 0 0 ∧
      (ffB ff0 x0 0 0 0 =
          ff0.fc3.fwd ff0.hidden_dim
            (fun hh =>
              silu (ff0.fc1.fwd ff0.emb_dim (x0 0 0) hh) *
                ff0.fc2.fwd ff0.emb_dim (x0 0 0) hh) 0 ∧
        (∀ z : ℝ, silu z = z * (1 / (1 + Real.exp (-z)))) ∧
        ffB ff0 x0 0 0 0 = ffB ff0 x0 0 0 0) :=
  ⟨rfl, ff_forward_formula ff0 x0 x0 0 0 rfl 0⟩

/-- C9: with the `cos`/`sin` tables produced by
`precompute_rope_params`, `compute_rope` leaves every vector at sequence
position `0` unchanged: all its angles are `0`, so the rotation there is
the identity. -/
theorem compute_rope_position_zero (head_dim ctx n : ℕ) (θ : ℝ)
    (c s : ℕ → ℕ → ℝ)
    (hcs : precompute_rope_paramsE head_dim θ ctx = Except.ok (c, s))
    (hn : 1 ≤ n) (hctx : n ≤ ctx) (x : ℕ → ℕ → ℝ) (k : ℕ) :
    compute_rope head_dim x c s 0 k = x 0 k := by
  obtain ⟨-, hc, hs⟩ := precompute_ok_inv hcs
  subst hc
  subst hs
  simp [compute_rope, ropeCos, ropeSin, ropeAngles]

/-- Witness for C9 at `head_dim = 2`, `θ = 1`, `context_length = 1`. -/
theorem compute_rope_position_zero_witness :
    precompute_rope_paramsE 2 1 1 = Except.ok (ropeCos 2 1, ropeSin 2 1) ∧
      1 ≤ 1 ∧ compute_rope 2 xs0 (ropeCos 2 1) (ropeSin 2 1) 0 0 = xs0 0 0 :=
  ⟨by norm_num [precompute_rope_paramsE], le_refl 1,
    compute_rope_position_zero 2 1 1 1 (ropeCos 2 1) (ropeSin 2 1)
      (by norm_num [precompute_rope_paramsE]) (le_refl 1) (le_refl 1) xs0 0⟩

/-- C2: with the `cos`/`sin` tables of
`precompute_rope_params(head_dim, theta_base, context_length)`,
`compute_rope` rotates each component pair
`(x[…, m, j], x[…, m, j + head_dim/2])` by the angle
`a = m * theta_base ^ (-2*j / head_dim)`: the output's `j`-th component
is `x[…, m, j] * cos a - x[…, m, j + head_dim/2] * sin a` and its
`(j + head_dim/2)`-th component is
`x[…, m, j + head_dim/2] * cos a + x[…, m, j] * sin a`. -/
theorem compute_rope_rotation (head_dim ctx n : ℕ) (θ : ℝ) (hθ : 0 < θ)
    (c s : ℕ → ℕ → ℝ)
    (hcs : precompute_rope_paramsE head_dim θ ctx = Except.ok (c, s))
    (x : ℕ → ℕ → ℝ) (m j : ℕ) (hm : m < n) (hn : n ≤ ctx)
    (hj : j < head_dim / 2) :
    compute_rope head_dim x c s m j =
      x m j * Real.cos ((m : ℝ) * θ ^ (-(2 * (j : ℝ) / (head_dim : ℝ)))) -
        x m (j + head_dim / 2) *
          Real.sin ((m : ℝ) * θ ^ (-(2 * (j : ℝ) / (head_dim : ℝ)))) ∧
    compute_rope head_dim x c s m (j + head_dim / 2) =
      x m (j + head_dim / 2) *
          Real.cos ((m : ℝ) * θ ^ (-(2 * (j : ℝ) / (head_dim : ℝ)))) +
        x m j * Real.sin ((m : ℝ) * θ ^ (-(2 * (j : ℝ) / (head_dim : ℝ)))) := by
  obtain ⟨-, hc, hs⟩ := precompute_ok_inv hcs
  subst hc
  subst hs
  have hfreq : ropeInvFreq head_dim θ j = θ ^ (-(2 * (j : ℝ) / (head_dim : ℝ))) := by
    unfold ropeInvFreq
    rw [Real.rpow_neg hθ.le, one_div]
    congr 2
    push_cast
    ring
  constructor
  · simp only [compute_rope, ropeCos, ropeSin, ropeAngles, hj, if_true]
    rw [hfreq, Nat.add_comm (head_dim / 2) j]
    ring
  · have h2 : ¬ j + head_dim / 2 < head_dim / 2 := by omega
    have hsub : j + head_dim / 2 - head_dim / 2 = j := by omega
    simp only [compute_rope, ropeCos, ropeSin, ropeAngles, h2, if_false, hsub]
    rw [hfreq]

/-- Witness for C2 at `head_dim = 2`, `θ = 1`, position `m = 0`,
pair index `j = 0`. -/
theorem compute_rope_rotation_witness :
    0 < (1 : ℝ) ∧ (0 : ℕ) < 1 ∧ (0 : ℕ) < 2 / 2 ∧
      (compute_rope 2 xs0 (ropeCos 2 1) (ropeSin 2 1) 0 0 =
          xs0 0 0 *
              Real.cos (((0 : ℕ) : ℝ) *
                (1 : ℝ) ^ (-(2 * ((0 : ℕ) : ℝ) / ((2 : ℕ) : ℝ)))) -
            xs0 0 (0 + 2 / 2) *
              Real.sin (((0 : ℕ) : ℝ) *
                (1 : ℝ) ^ (-(2 * ((0 : ℕ) : ℝ) / ((2 : ℕ) : ℝ)))) ∧
        compute_rope 2 xs0 (ropeCos 2 1) (ropeSin 2 1) 0 (0 + 2 / 2) =
          xs0 0 (0 + 2 / 2) *
              Real.cos (((0 : ℕ) : ℝ) *
                (1 : ℝ) ^ (-(2 * ((0 : ℕ) : ℝ) / ((2 : ℕ) : ℝ)))) +
            xs0 0 0 *
              Real.sin (((0 : ℕ) : ℝ) *
                (1 : ℝ) ^ (-(2 * ((0 : ℕ) : ℝ) / ((2 : ℕ) : ℝ))))) :=
  ⟨by norm_num, by norm_num, by norm_num,
    compute_rope_rotation 2 1 1 1 (by norm_num) (ropeCos 2 1) (ropeSin 2 1)
      (by norm_num [precompute_rope_paramsE]) xs0 0 0 (by norm_num)
      (le_refl 1) (by norm_num)⟩

/-- C10: with the `cos`/`sin` tables of `precompute_rope_params`,
`compute_rope` preserves the Euclidean norm of every per-position
vector of length `head_dim` — each coordinate pair undergoes an
orthogonal 2D rotation — stated over exact real arithmetic. -/
theorem compute_rope_norm_preserving (head_dim ctx n : ℕ) (θ : ℝ)
    (c s : ℕ → ℕ → ℝ)
    (hcs : precompute_rope_paramsE head_dim θ ctx = Except.ok (c, s))
    (x : ℕ → ℕ → ℝ) (m : ℕ) (hm : m < n) (hn : n ≤ ctx) :
    ∑ k ∈ Finset.range head_dim, compute_rope head_dim x c s m k ^ 2 =
      ∑ k ∈ Finset.range head_dim, x m k ^ 2 := by
  obtain ⟨heven, hc, hs⟩ := precompute_ok_inv hcs
  subst hc
  subst hs
  obtain ⟨h2, hh⟩ : ∃ h2, head_dim = h2 + h2 := ⟨head_dim / 2, by omega⟩
  subst hh
  have hhalf : (h2 + h2) / 2 = h2 := by omega
  rw [sum_range_add_pairs, sum_range_add_pairs]
  apply Finset.sum_congr rfl
  intro k hk
  have hklt : k < h2 := Finset.mem_range.mp hk
  have hnlt : ¬ h2 + k < h2 := by omega
  have hsub : h2 + k - h2 = k := by omega
  simp only [compute_rope, ropeCos, ropeSin, ropeAngles, hhalf, hklt, hnlt,
    if_true, if_false, hsub]
  linear_combination (x m k ^ 2 + x m (h2 + k) ^ 2) *
    Real.sin_sq_add_cos_sq (((m : ℕ) : ℝ) * ropeInvFreq (h2 + h2) θ k)

/-- Witness for C10 at `head_dim = 2`, `θ = 1`, position `m = 0`. -/
theorem compute_rope_norm_preserving_witness :
    precompute_rope_paramsE 2 1 1 = Except.ok (ropeCos 2 1, ropeSin 2 1) ∧
      (0 : ℕ) < 1 ∧
      ∑ k ∈ Finset.range 2,
          compute_rope 2 xs0 (ropeCos 2 1) (ropeSin 2 1) 0 k ^ 2 =
        ∑ k ∈ Finset.range 2, xs0 0 k ^ 2 :=
  ⟨by norm_num [precompute_rope_paramsE], by norm_num,
    compute_rope_norm_preserving 2 1 1 1 (ropeCos 2 1) (ropeSin 2 1)
      (by norm_num [precompute_rope_paramsE]) xs0 0 (by norm_num) (le_refl 1)⟩

/-- C6: `TransformerBlock.forward(x)` equals `h + ff(norm2(h))` with
`h = x + att(norm1(x))`: each sublayer is preceded by its own RMSNorm
and followed by a residual addition of the sublayer's un-normalized
input. -/
theorem tb_forward_residual (p : TransformerBlock) (nt : ℕ)
    (x h : ℕ → ℕ → ℕ → ℝ)
    (hh : h = fun bi t i =>
      x bi t i + p.att.forward nt (rmsnormB p.norm1 x) bi t i)
    (bi t i : ℕ) :
    p.forward nt x bi t i = h bi t i + ffB p.ff (rmsnormB p.norm2 h) bi t i := by
  subst hh
  have hx : (fun bi t i =>
        p.att.forward nt (rmsnormB p.norm1 x) bi t i + x bi t i) =
      fun bi t i =>
        x bi t i + p.att.forward nt (rmsnormB p.norm1 x) bi t i := by
    funext bi t i
    ring
  simp only [TransformerBlock.forward]
  rw [hx]
  ring

/-- Witness for C6 at `tb0` and the zero input. -/
theorem tb_forward_residual_witness :
    tb0.forward 1 x0 0 0 0 =
      (fun bi t i =>
          x0 bi t i + tb0.att.forward 1 (rmsnormB tb0.norm1 x0) bi t i) 0 0 0 +
        ffB tb0.ff
          (rmsnormB tb0.norm2
            (fun bi t i =>
              x0 bi t i + tb0.att.forward 1 (rmsnormB tb0.norm1 x0) bi t i))
          0 0 0 :=
  tb_forward_residual tb0 1 x0 _ rfl 0 0 0

/-- C8: every forward operation is algorithmically pure: expressed as a
state transformer, each returns the module's parameters and buffers
(for `MultiHeadedAttention` the `mask`, `cos` and `sin` buffers, despite
the in-place `masked_fill_` on the internally created score tensor) and
its input tensor unchanged, and a second call with an equal module state
and equal input returns an equal output. -/
theorem forwards_stateless (pr pr' : RMSNorm) (pf pf' : FeedForward)
    (pm pm' : MultiHeadedAttention) (pt pt' : TransformerBlock)
    (head_dim nt : ℕ) (xv xv' : ℕ → ℝ) (xr c s : ℕ → ℕ → ℝ)
    (xm xm' : ℕ → ℕ → ℕ → ℝ)
    (h1 : pr' = pr) (h2 : xv' = xv) (h3 : pf' = pf) (h4 : pm' = pm)
    (h5 : pt' = pt) (h6 : xm' = xm) :
    (rmsnormForwardS pr xv).2 = (pr, xv) ∧
    (ffForwardS pf xv).2 = (pf, xv) ∧
    (computeRopeS head_dim xr c s).2 = (xr, c, s) ∧
    (mhaForwardS pm nt xm).2 = (pm, xm) ∧
    (tbForwardS pt nt xm).2 = (pt, xm) ∧
    (rmsnormForwardS pr' xv').1 = (rmsnormForwardS pr xv).1 ∧
    (ffForwardS pf' xv').1 = (ffForwardS pf xv).1 ∧
    (mhaForwardS pm' nt xm').1 = (mhaForwardS pm nt xm).1 ∧
    (tbForwardS pt' nt xm').1 = (tbForwardS pt nt xm).1 := by
  subst h1 h2 h3 h4 h5 h6
  exact ⟨rfl, rfl, rfl, rfl, rfl, rfl, rfl, rfl, rfl⟩

/-- Witness for C8 at the concrete modules and zero inputs. -/
theorem forwards_stateless_witness :
    rms0 = rms0 ∧
      ((rmsnormForwardS rms0 (xs0 0)).2 = (rms0, xs0 0) ∧
        (ffForwardS ff0 (xs0 0)).2 = (ff0, xs0 0) ∧
        (computeRopeS 2 xs0 xs0 xs0).2 = (xs0, xs0, xs0) ∧
        (mhaForwardS mha0 1 x0).2 = (mha0, x0) ∧
        (tbForwardS tb0 1 x0).2 = (tb0, x0) ∧
        (rmsnormForwardS rms0 (xs0 0)).1 = (rmsnormForwardS rms0 (xs0 0)).1 ∧
        (ffForwardS ff0 (xs0 0)).1 = (ffForwardS ff0 (xs0 0)).1 ∧
        (mhaForwardS mha0 1 x0).1 = (mhaForwardS mha0 1 x0).1 ∧
        (tbForwardS tb0 1 x0).1 = (tbForwardS tb0 1 x0).1) :=
  ⟨rfl,
    forwards_stateless rms0 rms0 ff0 ff0 mha0 mha0 tb0 tb0 2 1 (xs0 0) (xs0 0)
      xs0 xs0 xs0 x0 x0 rfl rfl rfl rfl rfl rfl⟩

/-- C7 counterexample: with `d_out = 6` divisible by `num_heads = 2`,
`MultiHeadedAttention.__init__` still raises an assertion error — its
`precompute_rope_params(head_dim=3)` call fails the evenness assert — so
the constructor does NOT raise an assertion error "if and only if d_out
is not divisible by num_heads". -/
theorem mha_init_assert_cex :
    6 % 2 = 0 ∧
      mhaInitE 2 6 8 2 w0 w0 w0 w0 =
        Except.error "Embedding dimension must be even" := by
  constructor
  · norm_num
  · norm_num [mhaInitE, precompute_rope_paramsE]

/-- C7 (amended): `precompute_rope_params` and `compute_rope` raise an
assertion error iff `head_dim` is odd; `MultiHeadedAttention.__init__`
raises an assertion error iff `d_out` is not divisible by `num_heads` or
the resulting `head_dim = d_out // num_heads` is odd (the latter from the
`precompute_rope_params` call it makes); under a successful construction
the forward computation's only guarded branch (the `compute_rope`
asserts) succeeds. -/
theorem assertion_conditions (head_dim ctx d_in d_out nh nt : ℕ) (θ : ℝ)
    (xr c s : ℕ → ℕ → ℝ) (wq wk wv wo : ℕ → ℕ → ℝ)
    (xm : ℕ → ℕ → ℕ → ℝ) :
    ((∃ cs, precompute_rope_paramsE head_dim θ ctx = Except.ok cs) ↔
      head_dim % 2 = 0) ∧
    ((∃ y, compute_ropeE head_dim xr c s = Except.ok y) ↔
      head_dim % 2 = 0) ∧
    ((∃ p, mhaInitE d_in d_out ctx nh wq wk wv wo = Except.ok p) ↔
      d_out % nh = 0 ∧ (d_out / nh) % 2 = 0) ∧
    (∀ p, mhaInitE d_in d_out ctx nh wq wk wv wo = Except.ok p →
      ∃ y, mhaForwardE p nt xm = Except.ok y) := by
  refine ⟨?_, ?_, ?_, ?_⟩
  · by_cases h : head_dim % 2 = 0 <;>
      simp [precompute_rope_paramsE, h]
  · by_cases h : head_dim % 2 = 0 <;>
      simp [compute_ropeE, h]
  · by_cases hA : d_out % nh = 0
    · by_cases hB : (d_out / nh) % 2 = 0 <;>
        simp [mhaInitE, precompute_rope_paramsE, hA, hB]
    · simp [mhaInitE, hA]
  · intro p hp
    have hB : (d_out / nh) % 2 = 0 ∧ p = mhaInit d_in d_out ctx nh wq wk wv wo := by
      by_cases hA : d_out % nh = 0
      · by_cases hB : (d_out / nh) % 2 = 0
        · refine ⟨hB, ?_⟩
          simp [mhaInitE, precompute_rope_paramsE, hA, hB] at hp
          exact hp.symm
        · simp [mhaInitE, precompute_rope_paramsE, hA, hB] at hp
      · simp [mhaInitE, hA] at hp
    obtain ⟨hB, hpdef⟩ := hB
    subst hpdef
    have hhd : (mhaInit d_in d_out ctx nh wq wk wv wo).head_dim = d_out / nh := rfl
    refine ⟨(mhaInit d_in d_out ctx nh wq wk wv wo).forward nt xm, ?_⟩
    simp [mhaForwardE, hhd, hB]

/-- The code's attention weights coincide with the claim's description
(scores divided by `√head_dim` first, strictly-upper-triangular entries
then set to `-inf`, then softmax), provided the `mask` buffer is the
strict upper-triangular one that `__init__` registers. -/
theorem mhaWeights_eq_spec (p : MultiHeadedAttention)
    (hmask : ∀ i j, p.mask i j = decide (i < j))
    (nt : ℕ) (x : ℕ → ℕ → ℕ → ℝ) (bi h i j : ℕ) :
    mhaWeights p x nt bi h i j = mhaWeightsSpec p x nt bi h i j := by
  have hsc : ∀ j', mhaScoresSpec p x bi h i j' =
      mhaScores p x bi h i j' / Real.sqrt (p.head_dim : ℝ) := fun j' => rfl
  have hfilter : (Finset.range nt).filter (fun j' => p.mask i j' = false) =
      (Finset.range nt).filter (fun j' => ¬ i < j') := by
    apply Finset.filter_congr
    intro j' _
    rw [hmask i j']
    simp
  unfold mhaWeights mhaWeightsSpec
  rw [hmask i j, hfilter]
  simp only [decide_eq_true_eq]
  by_cases hij : i < j
  · rw [if_pos hij, if_pos hij]
  · rw [if_neg hij, if_neg hij, hsc j]
    congr 1

/-- C3: `MultiHeadedAttention.forward` computes exactly the pipeline the
claim describes — per head, queries/keys/values as the `head_dim`-sized
slices of `W_query(x)`, `W_key(x)`, `W_value(x)`; rotary embedding on
queries and keys but not values; scores `q·kᵀ / √head_dim`; every
strictly-upper-triangular score set to `-inf` before the softmax over
the key dimension; weights times values; heads re-concatenated and
passed through `out_proj` — provided the `mask` buffer is the strict
upper-triangular one `__init__` registers and `num_tokens` is at most
`context_length`. -/
theorem mha_forward_matches_spec (p : MultiHeadedAttention)
    (hmask : ∀ i j, p.mask i j = decide (i < j))
    (nt : ℕ) (hnt : nt ≤ p.context_length)
    (x : ℕ → ℕ → ℕ → ℝ) (bi t o : ℕ) :
    p.forward nt x bi t o = mhaForwardSpec p nt x bi t o := by
  unfold MultiHeadedAttention.forward mhaForwardSpec
  apply linearNB_congr
  intro o'
  unfold mhaContext mhaContextHead
  apply Finset.sum_congr rfl
  intro j _
  rw [mhaWeights_eq_spec p hmask nt x bi (o' / p.head_dim) t j]
  rfl

/-- Witness for C3 at `mha0` and the zero input. -/
theorem mha_forward_matches_spec_witness :
    mha0.mask 0 1 = decide ((0 : ℕ) < 1) ∧ 1 ≤ mha0.context_length ∧
      mha0.forward 1 x0 0 0 0 = mhaForwardSpec mha0 1 x0 0 0 0 :=
  ⟨rfl, by norm_num [mha0, mhaInit],
    mha_forward_matches_spec mha0 (fun i j => rfl) 1
      (by norm_num [mha0, mhaInit]) x0 0 0 0⟩

/-- A projection's output at token `t` depends only on the input at
token `t`. -/
theorem mhaProj_congr (w : ℕ → ℕ → ℝ) (d : ℕ) {x x' : ℕ → ℕ → ℕ → ℝ}
    {T : ℕ} (hag : ∀ bi t i, t ≤ T → x bi t i = x' bi t i)
    (bi t : ℕ) (ht : t ≤ T) (o : ℕ) :
    linearNB w d (x bi t) o = linearNB w d (x' bi t) o :=
  linearNB_congr w d (fun i => hag bi t i ht) o

/-- Rotary-embedded queries at token `t` depend only on the input at
token `t`. -/
theorem mhaQr_congr (p : MultiHeadedAttention) {x x' : ℕ → ℕ → ℕ → ℝ}
    {T : ℕ} (hag : ∀ bi t i, t ≤ T → x bi t i = x' bi t i)
    (bi h t : ℕ) (ht : t ≤ T) (k : ℕ) :
    mhaQr p x bi h t k = mhaQr p x' bi h t k := by
  unfold mhaQr mhaQ
  exact compute_rope_pos_congr p.head_dim p.cos p.sin t
    (fun k' => mhaProj_congr p.W_query p.d_in hag bi t ht (h * p.head_dim + k')) k

/-- Rotary-embedded keys at token `t` depend only on the input at
token `t`. -/
theorem mhaKr_congr (p : MultiHeadedAttention) {x x' : ℕ → ℕ → ℕ → ℝ}
    {T : ℕ} (hag : ∀ bi t i, t ≤ T → x bi t i = x' bi t i)
    (bi h t : ℕ) (ht : t ≤ T) (k : ℕ) :
    mhaKr p x bi h t k = mhaKr p x' bi h t k := by
  unfold mhaKr mhaK
  exact compute_rope_pos_congr p.head_dim p.cos p.sin t
    (fun k' => mhaProj_congr p.W_key p.d_in hag bi t ht (h * p.head_dim + k')) k

/-- The attention score at `(i, j)` depends only on the input at tokens
`i` and `j`. -/
theorem mhaScores_congr (p : MultiHeadedAttention) {x x' : ℕ → ℕ → ℕ → ℝ}
    {T : ℕ} (hag : ∀ bi t i, t ≤ T → x bi t i = x' bi t i)
    (bi h i j : ℕ) (hi : i ≤ T) (hj : j ≤ T) :
    mhaScores p x bi h i j = mhaScores p x' bi h i j := by
  unfold mhaScores
  apply Finset.sum_congr rfl
  intro k _
  rw [mhaQr_congr p hag bi h i hi k, mhaKr_congr p hag bi h j hj k]

/-- With the strict upper-triangular mask, row `i` of the attention
weights depends only on the input at tokens `≤ i`. -/
theorem mhaWeights_congr (p : MultiHeadedAttention)
    (hmask : ∀ i j, p.mask i j = decide (i < j))
    {x x' : ℕ → ℕ → ℕ → ℝ} {T : ℕ}
    (hag : ∀ bi t i, t ≤ T → x bi t i = x' bi t i)
    (nt bi h i j : ℕ) (hi : i ≤ T) :
    mhaWeights p x nt bi h i j = mhaWeights p x' nt bi h i j := by
  unfold mhaWeights
  by_cases hm : p.mask i j
  · rw [if_pos hm, if_pos hm]
  · rw [if_neg hm, if_neg hm]
    have hij : ¬ i < j := by simpa [hmask i j] using hm
    have hji : j ≤ i := by omega
    congr 1
    · rw [mhaScores_congr p hag bi h i j hi (le_trans hji hi)]
    · apply Finset.sum_congr rfl
      intro j' hj'
      have hmem := Finset.mem_filter.mp hj'
      have hij' : ¬ i < j' := by simpa [hmask i j'] using hmem.2
      have hj'i : j' ≤ i := by omega
      rw [mhaScores_congr p hag bi h i j' hi (le_trans hj'i hi)]

/-- With the strict upper-triangular mask, the per-head context vector
at token `t` depends only on the input at tokens `≤ t`: weights at
masked key positions `j > t` are zero, and unmasked positions read only
tokens `≤ t`. -/
theorem mhaContext_congr (p : MultiHeadedAttention)
    (hmask : ∀ i j, p.mask i j = decide (i < j))
    {x x' : ℕ → ℕ → ℕ → ℝ} {T : ℕ}
    (hag : ∀ bi t i, t ≤ T → x bi t i = x' bi t i)
    (nt bi t o : ℕ) (ht : t ≤ T) :
    mhaContext p x nt bi t o = mhaContext p x' nt bi t o := by
  unfold mhaContext mhaContextHead
  apply Finset.sum_congr rfl
  intro j _
  by_cases hm : p.mask t j
  · unfold mhaWeights
    rw [if_pos hm, if_pos hm, zero_mul, zero_mul]
  · have hij : ¬ t < j := by simpa [hmask t j] using hm
    have hjt : j ≤ t := by omega
    rw [mhaWeights_congr p hmask hag nt bi (o / p.head_dim) t j ht]
    congr 1
    unfold mhaV
    exact mhaProj_congr p.W_value p.d_in hag bi j (le_trans hjt ht)
      ((o / p.head_dim) * p.head_dim + o % p.head_dim)

/-- C1: causality of the masked attention — if two inputs of the same
shape agree at every token position up to and including `T`, then
`MultiHeadedAttention.forward` returns equal outputs at every token
position `t ≤ T`: the output at a position does not depend on tokens at
later positions. -/
theorem mha_forward_causal (p : MultiHeadedAttention)
    (hmask : ∀ i j, p.mask i j = decide (i < j))
    (nt : ℕ) (hnt : nt ≤ p.context_length) (T : ℕ)
    (x x' : ℕ → ℕ → ℕ → ℝ)
    (hag : ∀ bi t i, t ≤ T → x bi t i = x' bi t i)
    (bi t o : ℕ) (ht : t ≤ T) :
    p.forward nt x bi t o = p.forward nt x' bi t o := by
  unfold MultiHeadedAttention.forward
  exact linearNB_congr p.out_proj p.d_out
    (fun o' => mhaContext_congr p hmask hag nt bi t o' ht) o

/-- Witness for C1 at `mha0`, two (equal) zero inputs agreeing up to
position `0`. -/
theorem mha_forward_causal_witness :
    mha0.mask 0 1 = decide ((0 : ℕ) < 1) ∧ 1 ≤ mha0.context_length ∧
      (0 : ℕ) ≤ 0 ∧ mha0.forward 1 x0 0 0 0 = mha0.forward 1 x0 0 0 0 :=
  ⟨rfl, by norm_num [mha0, mhaInit], le_refl 0,
    mha_forward_causal mha0 (fun i j => rfl) 1 (by norm_num [mha0, mhaInit])
      0 x0 x0 (fun bi t i ht => rfl) 0 0 0 (le_refl 0)⟩

end Llama2

end
